import Mathlib

/-!
Shallow embedding of the multi-process MCP router in
`src/mcps/media-hub/hub.py` (the "skills hub"): JSON values on the wire,
the tool-mapping dictionary, the per-call routing function `call_tool`,
the catalog fan-out `proxy_list_tools`, the index rebuild
`populate_tool_mapping`, the startup pipeline `load_skills_and_initialize`,
and a small interleaving semantics for the per-worker locks and the
startup event.
-/

mutual

/-- JSON values, as produced by `json.loads` on one line read from a
worker's stdout pipe. -/
inductive Json where
  | null : Json
  | bool : Bool → Json
  | num : Int → Json
  | str : String → Json
  | arr : JsonList → Json
  | obj : JsonObj → Json
deriving DecidableEq, Repr

/-- Element list of a JSON array. -/
inductive JsonList where
  | nil : JsonList
  | cons : Json → JsonList → JsonList
deriving DecidableEq, Repr

/-- Field list of a JSON object (keys may repeat in raw text). -/
inductive JsonObj where
  | nil : JsonObj
  | cons : String → Json → JsonObj → JsonObj
deriving DecidableEq, Repr

end

/-- View a JSON array body as a Lean list. -/
def JsonList.toList : JsonList → List Json
  | .nil => []
  | .cons x tl => x :: tl.toList

/-- Build a JSON array body from a Lean list. -/
def JsonList.ofList : List Json → JsonList
  | [] => .nil
  | x :: tl => .cons x (JsonList.ofList tl)

/-- View a JSON object body as an association list. -/
def JsonObj.toList : JsonObj → List (String × Json)
  | .nil => []
  | .cons k v tl => (k, v) :: tl.toList

/-- Build a JSON object body from an association list. -/
def JsonObj.ofList : List (String × Json) → JsonObj
  | [] => .nil
  | (k, v) :: tl => .cons k v (JsonObj.ofList tl)

/-- Convenience constructor for JSON arrays. -/
def jarr (xs : List Json) : Json := Json.arr (JsonList.ofList xs)

/-- Convenience constructor for JSON objects. -/
def jobj (fs : List (String × Json)) : Json := Json.obj (JsonObj.ofList fs)

/-- Field lookup in a decoded JSON object; `json.loads` keeps the LAST
occurrence of a duplicated key, so the scan is from the right. -/
def lookupField (fields : List (String × Json)) (k : String) : Option Json :=
  (fields.reverse.find? (fun f => f.1 = k)).map (fun f => f.2)

mutual

/-- Python `str()` rendering of a decoded JSON value nested inside a
container (i.e. `repr`): used only to build the human-readable error
texts the hub embeds in its result payloads. -/
def pyRepr : Json → String
  | .null => "None"
  | .bool true => "True"
  | .bool false => "False"
  | .num n => toString n
  | .str s => "\x27" ++ s ++ "\x27"
  | .arr xs => "[" ++ pyReprList xs ++ "]"
  | .obj fs => "\x7b" ++ pyReprObj fs ++ "\x7d"

/-- Python `repr` of the elements of a list, comma separated. -/
def pyReprList : JsonList → String
  | .nil => ""
  | .cons x .nil => pyRepr x
  | .cons x tl => pyRepr x ++ ", " ++ pyReprList tl

/-- Python `repr` of the items of a dict, comma separated. -/
def pyReprObj : JsonObj → String
  | .nil => ""
  | .cons k v .nil => "\x27" ++ k ++ "\x27: " ++ pyRepr v
  | .cons k v tl => "\x27" ++ k ++ "\x27: " ++ pyRepr v ++ ", " ++ pyReprObj tl

end

/-- Python `str()` at top level: a string renders as itself, everything
else as its `repr`. Used for f-string interpolation of JSON values. -/
def pyStr (j : Json) : String :=
  match j with
  | .str s => s
  | _ => pyRepr j

/-- Python `key in x` for a decoded JSON value `x`: key membership for a
dict, element membership for a list, substring test for a string, and a
raised `TypeError` (modelled as `.error`) for the other types. -/
def pyInKey (k : String) (j : Json) : Except String Bool :=
  match j with
  | .obj fs => .ok (fs.toList.any (fun f => f.1 == k))
  | .arr xs => .ok (xs.toList.any (fun x => x == Json.str k))
  | .str s => .ok (decide ((s.splitOn k).length > 1))
  | _ => .error "TypeError"

/-- Python `x.get(k, dflt)`: only a dict has `.get`; anything else raises
`AttributeError` (modelled as `.error`). -/
def pyGet (j : Json) (k : String) (dflt : Json) : Except String Json :=
  match j with
  | .obj fs => .ok ((lookupField fs.toList k).getD dflt)
  | _ => .error "AttributeError"

/-- Python `x[k]` for a string key: dict lookup (raising `KeyError` when
absent), and a raised `TypeError` for lists, strings and scalars. -/
def pyIndexKey (j : Json) (k : String) : Except String Json :=
  match j with
  | .obj fs =>
    match lookupField fs.toList k with
    | some v => .ok v
    | none => .error "KeyError"
  | _ => .error "TypeError"

/-- Python-dict insertion into an insertion-ordered association list:
assignment to an existing key overwrites in place, a new key appends. -/
def dictInsert (d : List (String × String)) (k v : String) : List (String × String) :=
  match d with
  | [] => [(k, v)]
  | (k2, v2) :: rest => if k2 = k then (k, v) :: rest else (k2, v2) :: dictInsert rest k v

/-- Python `d.get(k)` on a string-valued dict: first (unique) key wins. -/
def dictGet (d : List (String × String)) (k : String) : Option String :=
  match d with
  | [] => none
  | (k2, v2) :: rest => if k2 = k then some v2 else dictGet rest k

/-- Outcome of one write/readline exchange with a worker process, as the
hub observes it: end-of-stream on the readline, a decoded response line,
or a raised exception either at the write/drain or at the readline/decode
step (exception texts are abbreviated tags, not CPython's full wording). -/
inductive WireOutcome where
  | eof : WireOutcome
  | line : Json → WireOutcome
  | raisesAtWrite : String → WireOutcome
  | raisesAtRead : String → WireOutcome
deriving DecidableEq, Repr

/-- A validated tool record: `Tool(**t)` from the external `mcp` library
(spec section 6: a tool carries name, description, inputSchema). -/
structure ToolR where
  name : String
  raw : Json
deriving DecidableEq, Repr

/-- Embeds `Tool(**t)`: raises unless `t` is a mapping with a string `name` and
an object `inputSchema` (the two required fields of `mcp.types.Tool`). -/
def parseTool (t : Json) : Except String ToolR :=
  match t with
  | .obj fs =>
    match lookupField fs.toList "name", lookupField fs.toList "inputSchema" with
    | some (.str n), some (.obj _) => .ok ⟨n, .obj fs⟩
    | _, _ => .error "ValidationError"
  | _ => .error "TypeError"

/-- The payload `TextContent(type="text", text=t)` as the JSON the hub returns. -/
def textContent (t : String) : Json :=
  jobj [("type", Json.str "text"), ("text", Json.str t)]

/-- The `tools/call` request `call_tool` writes to the owning worker:
the caller's `name` and `arguments` are embedded unchanged in `params`. -/
def mkToolsCallRequest (name : String) (args : Json) : Json :=
  jobj [("jsonrpc", Json.str "2.0"), ("method", Json.str "tools/call"),
        ("params", jobj [("name", Json.str name), ("arguments", args)]),
        ("id", Json.num 1)]

/-- The hub's routing state as `call_tool` reads it: `TOOL_MAPPING`,
and the key sets of `PROCESSES` and `SKILL_LOCKS`. -/
structure HubState where
  toolMapping : List (String × String)
  processes : List String
  locks : List String
deriving DecidableEq, Repr

/-- Embeds `skill_name = TOOL_MAPPING.get(name); if not skill_name: skill_name = name`
(Python truthiness: a missing key or an empty-string value both fall back
to the literal operation name). -/
def resolve_skill (st : HubState) (name : String) : String :=
  match dictGet st.toolMapping name with
  | some s => if s = "" then name else s
  | none => name

/-- The body of the `try:` block of `call_tool` under worker outcome `o`:
`.error` models an exception reaching the `except` clause. -/
def call_tool_exchange (o : WireOutcome) : Except String Json :=
  match o with
  | .raisesAtWrite e => .error e
  | .raisesAtRead e => .error e
  | .eof => .ok (jarr [textContent "Error: Empty response from skill"])
  | .line resp => do
    let hasErr ← pyInKey "error" resp
    if hasErr then do
      let ev ← pyIndexKey resp "error"
      pure (jarr [textContent ("Error from skill: " ++ pyStr ev)])
    else do
      let res ← pyGet resp "result" (jobj [])
      let content ← pyGet res "content" (jarr [])
      pure content

/-- Embeds `call_tool(name, arguments)` of `hub.py` (after the startup gate):
resolve through `TOOL_MAPPING` with fallback to the literal name, return
an "Unknown tool" text when no process/lock exists, otherwise perform the
locked exchange, catching every exception as a text result. `behavior`
gives the addressed worker's observable reaction to the written request
(which embeds `name` and `args` unchanged, see `mkToolsCallRequest`). -/
def call_tool (st : HubState) (behavior : String → Json → WireOutcome) (name : String)
    (args : Json) : Json :=
  let skill := resolve_skill st name
  if st.processes.contains skill && st.locks.contains skill then
    match call_tool_exchange (behavior skill (mkToolsCallRequest name args)) with
    | .ok j => j
    | .error e => jarr [textContent ("Error communicating with skill: " ++ e)]
  else
    jarr [textContent ("Unknown tool: " ++ name)]

/-- The insertion loop of `populate_tool_mapping` for one worker:
`for t in skill_tools: tool_obj = Tool(**t); TOOL_MAPPING[tool_obj.name] = name`.
A raising `Tool(**t)` aborts the loop (the surrounding `except` catches),
keeping the entries already inserted. -/
def insertTools (m : List (String × String)) (skill : String) : List Json → List (String × String)
  | [] => m
  | t :: rest =>
    match parseTool t with
    | .ok tl => insertTools (dictInsert m tl.name skill) skill rest
    | .error _ => m

/-- One worker's step of `populate_tool_mapping`: write `tools/list`,
read one line, and on `if "result" in response` insert every declared
tool; any exception leaves the mapping as it was for this worker. -/
def populate_worker (m : List (String × String)) (s : String × WireOutcome) :
    List (String × String) :=
  match s.2 with
  | .line resp =>
    match pyInKey "result" resp with
    | .ok true =>
      match pyIndexKey resp "result" with
      | .ok res =>
        match pyGet res "tools" (jarr []) with
        | .ok (.arr ts) => insertTools m s.1 ts.toList
        | _ => m
      | .error _ => m
    | _ => m
  | _ => m

/-- Embeds `populate_tool_mapping()` of `hub.py`: clear `TOOL_MAPPING`, then, in
registry enumeration order, poll each worker's `tools/list` and insert its
tools (per-worker failures swallowed). Input: each registered worker's
name paired with its observable reaction to the `tools/list` exchange. -/
def populate_tool_mapping (skills : List (String × WireOutcome)) :
    List (String × String) :=
  skills.foldl populate_worker []

/-- The successive values of `TOOL_MAPPING` that are observable at the
suspension points of `populate_tool_mapping`: the cleared state (the
rebuild starts with `TOOL_MAPPING.clear()` and then awaits each worker's
lock, drain and readline), followed by the state after each worker in
enumeration order. A concurrently scheduled reader runs between any two
of these points and sees the mapping value listed here. -/
def populate_states_from (m : List (String × String)) :
    List (String × WireOutcome) → List (List (String × String))
  | [] => []
  | s :: rest =>
    let m2 := populate_worker m s
    m2 :: populate_states_from m2 rest

/-- All mapping values observable during one run of
`populate_tool_mapping` (cleared state included). -/
def populate_tool_mapping_states (skills : List (String × WireOutcome)) :
    List (List (String × String)) :=
  [] :: populate_states_from [] skills

/-- One worker's view in `proxy_list_tools`: its name, whether its
process has already exited (`proc.returncode is not None`), and its
observable reaction to the `tools/list` exchange. -/
structure ProxySkill where
  name : String
  dead : Bool
  outcome : WireOutcome
deriving DecidableEq, Repr

/-- The append loop of `proxy_list_tools`:
`for t in ...: tools.append(Tool(**t))`; a raising `Tool(**t)` aborts the
loop, keeping the tools appended so far. -/
def collectTools (acc : List ToolR) : List Json → List ToolR
  | [] => acc
  | t :: rest =>
    match parseTool t with
    | .ok tl => collectTools (acc ++ [tl]) rest
    | .error _ => acc

/-- One worker's step of `proxy_list_tools`: skip a dead process, skip on
empty read, skip on an `error` response, append the reported tools from
`response.get("result", {}).get("tools", [])`, and swallow any exception
(keeping whatever was appended before it was raised). -/
def proxy_worker (acc : List ToolR) (s : ProxySkill) : List ToolR :=
  if s.dead then acc
  else
    match s.outcome with
    | .raisesAtWrite _ => acc
    | .raisesAtRead _ => acc
    | .eof => acc
    | .line resp =>
      match pyInKey "error" resp with
      | .error _ => acc
      | .ok true => acc
      | .ok false =>
        match pyGet resp "result" (jobj []) with
        | .error _ => acc
        | .ok res =>
          match pyGet res "tools" (jarr []) with
          | .error _ => acc
          | .ok (.arr ts) => collectTools acc ts.toList
          | .ok _ => acc

/-- Embeds `proxy_list_tools()` of `hub.py` (after the startup gate): fan out to
every registered worker in enumeration order, merging the reported tools;
every per-worker failure is swallowed and that worker is skipped. -/
def proxy_list_tools (skills : List ProxySkill) : List ToolR :=
  skills.foldl proxy_worker []

/-- One skill directory's behaviour, as the startup pipeline can observe
it: its manifest `name`, whether `spawn_skill` succeeds (manifest parses
and `create_subprocess_exec` does not raise), the worker's reaction to
the `initialize` exchange, whether the follow-up `notifications/initialized`
write succeeds, and the worker's reaction to the `tools/list` exchange of
the initial index build. -/
structure SkillSpec where
  name : String
  spawnOk : Bool
  initResp : WireOutcome
  notifyOk : Bool
  listResp : WireOutcome
deriving DecidableEq, Repr

/-- Embeds `initialize_skill_process(name, proc)` of `hub.py`: write the
`initialize` request, read one line (False on end-of-stream), decode it
(an exception yields False), return False when the response carries an
`error` member, send the `initialized` notification (an exception yields
False), else True. The registry is NOT touched on any path. -/
def initialize_skill_process (o : WireOutcome) (notifyOk : Bool) : Bool :=
  match o with
  | .raisesAtWrite _ => false
  | .raisesAtRead _ => false
  | .eof => false
  | .line resp =>
    match pyInKey "error" resp with
    | .error _ => false
    | .ok true => false
    | .ok false => notifyOk

/-- Key insertion in Python-dict order: `PROCESSES[name] = process` keeps
an existing key at its original position. -/
def dinsertName (l : List String) (s : String) : List String :=
  if l.contains s then l else l ++ [s]

/-- The key set (in insertion order) of `PROCESSES` after the spawn
phase: every skill whose spawn succeeded, failures dropped. -/
def spawn_registry (skills : List SkillSpec) : List String :=
  (skills.filter (fun s => s.spawnOk)).foldl (fun acc s => dinsertName acc s.name) []

/-- The spec stored under a registry name: `PROCESSES[name] = process`
overwrites, so the LAST successfully spawned skill of that name wins. -/
def specOf (skills : List SkillSpec) (n : String) : Option SkillSpec :=
  skills.reverse.find? (fun s => s.name == n && s.spawnOk)

/-- The worker's `tools/list` reaction looked up by registry name. -/
def listBehaviorOf (skills : List SkillSpec) (n : String) : WireOutcome :=
  match specOf skills n with
  | some s => s.listResp
  | none => .eof

/-- The hub's global state once `load_skills_and_initialize` finishes:
the registry (key sets of `PROCESSES` and `SKILL_LOCKS`), the tool
mapping, whether `STARTUP_EVENT` was set, and the handshake results
that `asyncio.gather` returned (and the source discards). -/
structure HubBootState where
  registry : List String
  locks : List String
  mapping : List (String × String)
  startupEventSet : Bool
  handshakeResults : List Bool
deriving DecidableEq, Repr

/-- Embeds `load_skills_and_initialize()` of `hub.py`: when the skills directory
is missing, log, set `STARTUP_EVENT` and return with everything empty
(the server keeps running); otherwise spawn every skill (failures only
drop that skill), run the handshakes (collecting the Booleans that the
source then discards — no registry change), and build the tool mapping
over ALL registered workers. -/
def load_skills_and_initialize (dirExists : Bool) (skills : List SkillSpec) :
    HubBootState :=
  if !dirExists then ⟨[], [], [], true, []⟩
  else
    let reg := spawn_registry skills
    let results := reg.map (fun n =>
      match specOf skills n with
      | some s => initialize_skill_process s.initResp s.notifyOk
      | none => false)
    let mapping := populate_tool_mapping (reg.map (fun n => (n, listBehaviorOf skills n)))
    ⟨reg, reg, mapping, true, results⟩

/-- Scheduler-visible atomic actions of a hub task: suspending on
`STARTUP_EVENT.wait()`, `STARTUP_EVENT.set()`, acquiring/releasing one
worker's `asyncio.Lock`, writing one request line to a worker's stdin,
and reading one line from its stdout. -/
inductive HubAct where
  | awaitStartup : HubAct
  | setStartup : HubAct
  | acquire : String → HubAct
  | write : String → Json → HubAct
  | readline : String → HubAct
  | release : String → HubAct
deriving DecidableEq, Repr

/-- The worker a given action touches, if any. -/
def HubAct.onWorker : HubAct → Option String
  | .acquire w => some w
  | .write w _ => some w
  | .readline w => some w
  | .release w => some w
  | _ => none

/-- Whether an action is a lock acquisition or release. -/
def HubAct.isLock : HubAct → Bool
  | .acquire _ => true
  | .release _ => true
  | _ => false

/-- One cooperatively scheduled task: the actions it has already
performed (in order) and the actions still ahead of it. -/
structure RTask where
  done : List HubAct
  todo : List HubAct
deriving Repr

/-- Global scheduler state: all tasks, which task (if any) holds each
worker's lock, and whether `STARTUP_EVENT` is set. -/
structure Config where
  tasks : List RTask
  holder : String → Option Nat
  started : Bool

/-- Enabling condition of an action for task `i`: `wait()` resumes only
once the event is set, `acquire` only when the lock is free, `release`
only by the task holding the lock; writes and reads are unconditioned
(the transport itself never blocks a scheduled writer). -/
def lockPre (c : Config) (i : Nat) (a : HubAct) : Prop :=
  match a with
  | .awaitStartup => c.started = true
  | .acquire w => c.holder w = none
  | .release w => c.holder w = some i
  | _ => True

/-- Effect of task `i` performing action `a`: the action moves from the
task's future to its past, lock ownership and the startup flag update.
The event has `set()` but no `clear()` anywhere in `hub.py`, so no
action resets `started`. -/
def applyAct (c : Config) (i : Nat) (t : RTask) (a : HubAct) (rest : List HubAct) : Config :=
  { tasks := c.tasks.set i ⟨t.done ++ [a], rest⟩,
    holder := fun v =>
      match a with
      | .acquire w => if v = w then some i else c.holder v
      | .release w => if v = w then none else c.holder v
      | _ => c.holder v,
    started :=
      match a with
      | .setStartup => true
      | _ => c.started }

/-- Interleaving small-step relation: task `i` performs its next pending
action when that action is enabled. -/
inductive Step : Config → Nat → Config → Prop where
  | mk (c : Config) (i : Nat) (t : RTask) (a : HubAct) (rest : List HubAct)
      (hget : c.tasks[i]? = some t)
      (htodo : t.todo = a :: rest)
      (hpre : lockPre c i a) :
      Step c i (applyAct c i t a rest)

/-- Reflexive-transitive closure of the interleaving steps. -/
def Reachable (c c2 : Config) : Prop :=
  Relation.ReflTransGen (fun x y => ∃ i, Step x i y) c c2

/-- Number of lock acquisitions of worker `w` recorded in a history. -/
def acqCount (l : List HubAct) (w : String) : Nat := l.count (HubAct.acquire w)

/-- Number of lock releases of worker `w` recorded in a history. -/
def relCount (l : List HubAct) (w : String) : Nat := l.count (HubAct.release w)

/-- A task currently holds `w`'s lock: more acquisitions than releases
in its past. -/
def TaskHolds (t : RTask) (w : String) : Prop :=
  relCount t.done w < acqCount t.done w

/-- Task `i` of the configuration holds `w`'s lock. -/
def Holds (c : Config) (w : String) (i : Nat) : Prop :=
  ∃ t, c.tasks[i]? = some t ∧ TaskHolds t w

/-- A task has an RPC exchange outstanding on worker `w`: it has written
a request to `w` and has neither read the response line nor given the
lock up (abandoning the exchange) since. -/
def OutstandingTask (t : RTask) (w : String) : Prop :=
  ∃ d1 req d2, t.done = d1 ++ HubAct.write w req :: d2 ∧
    HubAct.readline w ∉ d2 ∧ HubAct.release w ∉ d2

/-- Task `i` of the configuration has an exchange outstanding on `w`. -/
def Outstanding (c : Config) (w : String) (i : Nat) : Prop :=
  ∃ t, c.tasks[i]? = some t ∧ OutstandingTask t w

/-- Traces with at most one lock region: optional lock-free actions,
then one `acquire w` … `release w` block whose interior actions all
address `w` (or touch no worker) and never touch a lock. Every trace of
`call_tool` has this shape. -/
inductive SingleRegion : List HubAct → Prop where
  | noLock (tr : List HubAct) (h : ∀ a ∈ tr, a.onWorker = none) : SingleRegion tr
  | region (hd : List HubAct) (w : String) (mid : List HubAct)
      (hhd : ∀ a ∈ hd, a.onWorker = none)
      (hmid : ∀ a ∈ mid, a.isLock = false ∧ (a.onWorker = some w ∨ a.onWorker = none)) :
      SingleRegion (hd ++ HubAct.acquire w :: (mid ++ [HubAct.release w]))

/-- The action trace of one `call_tool(name, arguments)` invocation:
wait for startup; resolve; when no worker matches, return at once;
otherwise acquire the owning worker's lock, write the request, read the
reply, and release — with the write (and the read) skipped exactly when
the corresponding Python step raises, the `except` clause still passing
through the `async with` release. -/
def call_tool_actions (st : HubState) (behavior : String → Json → WireOutcome)
    (name : String) (args : Json) : List HubAct :=
  let skill := resolve_skill st name
  if st.processes.contains skill && st.locks.contains skill then
    let req := mkToolsCallRequest name args
    match behavior skill req with
    | .raisesAtWrite _ => [.awaitStartup, .acquire skill, .release skill]
    | .raisesAtRead _ =>
      [.awaitStartup, .acquire skill, .write skill req, .release skill]
    | .eof =>
      [.awaitStartup, .acquire skill, .write skill req, .readline skill, .release skill]
    | .line _ =>
      [.awaitStartup, .acquire skill, .write skill req, .readline skill, .release skill]
  else [.awaitStartup]

/-- The `tools/list` request written by `proxy_list_tools` (and by
`populate_tool_mapping`). -/
def mkToolsListRequest : Json :=
  jobj [("jsonrpc", Json.str "2.0"), ("method", Json.str "tools/list"), ("id", Json.num 1)]

/-- The action trace of one worker's turn inside `proxy_list_tools`:
the dead-process check happens after acquiring the lock, so a dead
worker's lock is still taken and released. -/
def proxy_worker_actions (s : ProxySkill) : List HubAct :=
  if s.dead then [.acquire s.name, .release s.name]
  else
    match s.outcome with
    | .raisesAtWrite _ => [.acquire s.name, .release s.name]
    | .raisesAtRead _ =>
      [.acquire s.name, .write s.name mkToolsListRequest, .release s.name]
    | _ =>
      [.acquire s.name, .write s.name mkToolsListRequest, .readline s.name, .release s.name]

/-- The action trace of one `proxy_list_tools()` call: wait for startup,
then visit every registered worker in order. -/
def proxy_list_tools_actions (skills : List ProxySkill) : List HubAct :=
  HubAct.awaitStartup :: (skills.map proxy_worker_actions).flatten

/-- The configuration invariant: every task's full trace is single-region
(true of every `call_tool` trace), and lock ownership coincides with the
acquire/release history of the owning task. -/
def GoodConfig (c : Config) : Prop :=
  (∀ t ∈ c.tasks, SingleRegion (t.done ++ t.todo)) ∧
  (∀ w k, c.holder w = some k ↔ Holds c w k)

/-- An initial scheduler state where every task is one `call_tool`
invocation that has not run yet: no lock is held, no history, and each
task's future is the action trace of `call_tool` for some routing state,
worker behaviour, operation name and payload. -/
def CallToolTasks (c : Config) : Prop :=
  (∀ w, c.holder w = none) ∧
  (∀ t ∈ c.tasks, t.done = [] ∧
    ∃ st behavior name args, t.todo = call_tool_actions st behavior name args)

/-- A well-formed tool declaration named `t` (string name plus the
required object `inputSchema`), as a worker reports it in `tools/list`. -/
def mkToolJson (t : String) : Json :=
  jobj [("name", Json.str t), ("inputSchema", jobj [])]

/-- A fully well-formed `tools/list` response declaring tools `ts`. -/
def mkToolsListResponse (ts : List String) : Json :=
  jobj [("jsonrpc", Json.str "2.0"), ("id", Json.num 1),
        ("result", jobj [("tools", jarr (ts.map mkToolJson))])]

/-- The worker enumerated last among those declaring operation `t`: the
spec's description of which entry survives the last-write-wins rule. -/
def lastDeclarer (workers : List (String × List String)) (t : String) : Option String :=
  (workers.reverse.find? (fun wk => decide (t ∈ wk.2))).map (fun wk => wk.1)

/-- Encode a roster of responsive workers (name, declared tool names)
as the per-worker `tools/list` outcomes `populate_tool_mapping` sees. -/
def okWorkers (workers : List (String × List String)) : List (String × WireOutcome) :=
  workers.map (fun wk => (wk.1, WireOutcome.line (mkToolsListResponse wk.2)))

/-- Plain field access on a JSON object value (used only to state
properties of the requests the hub constructs). -/
def jsonField (j : Json) (k : String) : Option Json :=
  match j with
  | .obj fs => lookupField fs.toList k
  | _ => none

/-- A worker that `proxy_list_tools` skips: dead process, end-of-stream
on the readline, an exception at the write or read/decode step, or an
`error` response. -/
def skippedSilently (s : ProxySkill) : Prop :=
  s.dead = true ∨ s.outcome = .eof ∨ (∃ m, s.outcome = .raisesAtWrite m) ∨
    (∃ m, s.outcome = .raisesAtRead m) ∨
    (∃ r, s.outcome = .line r ∧ pyInKey "error" r = .ok true)

/-- Replace a skill's handshake behaviour (its `initialize` reaction and
the success of the follow-up notification), leaving its name, spawn
outcome and `tools/list` reaction untouched. -/
def tweakInit (f : SkillSpec → WireOutcome) (g : SkillSpec → Bool) (s : SkillSpec) : SkillSpec :=
  SkillSpec.mk s.name s.spawnOk (f s) (g s) s.listResp

/-- Two healthy workers for the rebuild scenario: A serves x, B serves y. -/
def rebuildDemo : List (String × WireOutcome) :=
  okWorkers [("A", ["x"]), ("B", ["y"])]

/-- A worker whose spawn succeeds, whose `initialize` reply carries an
`error` member (handshake failure), and which still answers `tools/list`
with one tool `t`. -/
def badInitSkill : SkillSpec :=
  SkillSpec.mk "a" true
    (WireOutcome.line (jobj [("jsonrpc", Json.str "2.0"), ("id", Json.num 0),
      ("error", jobj [("code", Json.num (-32600)), ("message", Json.str "bad handshake")])]))
    true (WireOutcome.line (mkToolsListResponse ["t"]))

/-- A routing state and worker behaviour exercising the C3 theorem. -/
def fwdSt : HubState := HubState.mk [("t", "a")] ["a"] ["a"]

/-- A worker that answers every call with one text content item. -/
def fwdBeh : String → Json → WireOutcome := fun _ _ =>
  .line (jobj [("jsonrpc", Json.str "2.0"), ("id", Json.num 1),
    ("result", jobj [("content", jarr [textContent "ok"])])])

/-- A routing state and two identical pending `call_tool` tasks aimed at
worker "a", used to instantiate the concurrency theorems. -/
def twoCallsDemo : Config :=
  Config.mk
    [RTask.mk [] (call_tool_actions fwdSt (fun _ _ => WireOutcome.eof) "t" (jobj [])),
     RTask.mk [] (call_tool_actions fwdSt (fun _ _ => WireOutcome.eof) "t" (jobj []))]
    (fun _ => none) true

/-- A configuration with one pending `call_tool` task and the startup
event still unset: its first action is the startup wait, and it cannot
step. -/
def blockedDemo : Config :=
  Config.mk
    [RTask.mk [] (call_tool_actions fwdSt (fun _ _ => WireOutcome.eof) "t" (jobj []))]
    (fun _ => none) false

/-- A worker that replies with a bare success envelope (a `result`
object with no `content`). -/
def bareBeh : String → Json → WireOutcome := fun _ _ =>
  .line (jobj [("jsonrpc", Json.str "2.0"), ("id", Json.num 1), ("result", jobj [])])

theorem counts_zero_of_none (l : List HubAct) (w : String)
    (h : ∀ a ∈ l, a.onWorker = none) : acqCount l w = 0 ∧ relCount l w = 0 := by
  constructor
  · refine List.count_eq_zero.mpr (fun hmem => ?_)
    have := h _ hmem
    simp [HubAct.onWorker] at this
  · refine List.count_eq_zero.mpr (fun hmem => ?_)
    have := h _ hmem
    simp [HubAct.onWorker] at this

theorem counts_zero_of_noLock (l : List HubAct) (w : String)
    (h : ∀ a ∈ l, a.isLock = false) : acqCount l w = 0 ∧ relCount l w = 0 := by
  constructor
  · refine List.count_eq_zero.mpr (fun hmem => ?_)
    have := h _ hmem
    simp [HubAct.isLock] at this
  · refine List.count_eq_zero.mpr (fun hmem => ?_)
    have := h _ hmem
    simp [HubAct.isLock] at this

/-- Decomposition of the consumed part `d` of a single-region trace:
either it is still inside the lock-free preamble, or it has consumed the
acquisition (and possibly the final release). -/
theorem singleRegion_split (tr d t : List HubAct)
    (hsr : SingleRegion tr) (hdt : d ++ t = tr) :
    (∀ a ∈ d, a.onWorker = none) ∨
    (∃ hd w mid1, (∀ a ∈ hd, a.onWorker = none) ∧
      (∀ a ∈ mid1, a.isLock = false ∧ (a.onWorker = some w ∨ a.onWorker = none)) ∧
      (d = hd ++ HubAct.acquire w :: mid1 ∨
        d = hd ++ HubAct.acquire w :: (mid1 ++ [HubAct.release w]))) := by
  cases hsr with
  | noLock tr h =>
    left
    intro a ha
    exact h a (hdt ▸ List.mem_append_left _ ha)
  | region hd w mid hhd hmid =>
    rcases List.append_eq_append_iff.mp hdt with ⟨r, hr, _⟩ | ⟨r, hr, hrt⟩
    · left
      intro a ha
      exact hhd a (hr ▸ List.mem_append_left _ ha)
    · cases r with
      | nil =>
        left
        intro a ha
        simp only [List.append_nil] at hr
        exact hhd a (hr ▸ ha)
      | cons x c2 =>
        have hx : x = HubAct.acquire w ∧ c2 ++ t = mid ++ [HubAct.release w] := by
          have := hrt
          simp only [List.cons_append] at this
          exact ⟨(List.cons.injEq _ _ _ _ ▸ this.symm).1, (List.cons.injEq _ _ _ _ ▸ this.symm).2⟩
        rcases List.append_eq_append_iff.mp hx.2 with ⟨r2, hr2, _⟩ | ⟨r2, hr2, hrt2⟩
        · right
          exact ⟨hd, w, c2, hhd, fun a ha => hmid a (hr2 ▸ List.mem_append_left _ ha),
            Or.inl (by rw [hr, hx.1])⟩
        · cases r2 with
          | nil =>
            right
            simp only [List.append_nil] at hr2
            exact ⟨hd, w, c2, hhd, fun a ha => hmid a (hr2 ▸ ha),
              Or.inl (by rw [hr, hx.1])⟩
          | cons y r3 =>
            have hy : y = HubAct.release w ∧ r3 ++ t = [] := by
              have := hrt2
              simp only [List.cons_append] at this
              exact ⟨(List.cons.injEq _ _ _ _ ▸ this).1.symm,
                ((List.cons.injEq _ _ _ _ ▸ this).2).symm⟩
            have hr3 : r3 = [] := List.append_eq_nil.mp hy.2 |>.1
            right
            refine ⟨hd, w, mid, hhd, hmid, Or.inr ?_⟩
            rw [hr, hr2, hy.1, hr3]
            simp [hx.1]

theorem count_bounds (tr d t : List HubAct) (w : String)
    (hsr : SingleRegion tr) (hdt : d ++ t = tr) :
    acqCount d w ≤ 1 ∧ relCount d w ≤ acqCount d w := by
  rcases singleRegion_split tr d t hsr hdt with hnone | ⟨hd, v, mid1, hhd, hmid, hcase | hcase⟩
  · have h0 := counts_zero_of_none d w hnone
    omega
  · have h1 := counts_zero_of_none hd w hhd
    have h2 := counts_zero_of_noLock mid1 w (fun a ha => (hmid a ha).1)
    subst hcase
    simp only [acqCount, relCount, List.count_append, List.count_cons] at h1 h2 ⊢
    by_cases hvw : v = w <;> simp [hvw, h1.1, h1.2, h2.1, h2.2]
  · have h1 := counts_zero_of_none hd w hhd
    have h2 := counts_zero_of_noLock mid1 w (fun a ha => (hmid a ha).1)
    subst hcase
    simp only [acqCount, relCount, List.count_append, List.count_cons] at h1 h2 ⊢
    by_cases hvw : v = w <;> simp [hvw, h1.1, h1.2, h2.1, h2.2]

theorem outstandingTask_holds (d t : List HubAct) (w : String)
    (hsr : SingleRegion (d ++ t)) (ho : OutstandingTask ⟨d, t⟩ w) :
    TaskHolds ⟨d, t⟩ w := by
  obtain ⟨d1, req, d2, hdone, _, hnl⟩ := ho
  simp only at hdone hnl
  have hw_mem : HubAct.write w req ∈ d := by
    rw [hdone]
    exact List.mem_append_right _ (List.mem_cons_self _ _)
  rcases singleRegion_split (d ++ t) d t hsr rfl with hnone | ⟨hd, v, mid1, hhd, hmid, hcase⟩
  · have := hnone _ hw_mem
    simp [HubAct.onWorker] at this
  · have hvw : v = w := by
      rcases hcase with h | h
      · subst h
        rcases List.mem_append.mp hw_mem with h1 | h1
        · have := hhd _ h1
          simp [HubAct.onWorker] at this
        · rcases List.mem_cons.mp h1 with h2 | h2
          · cases h2
          · rcases (hmid _ h2).2 with h3 | h3
            · simp [HubAct.onWorker] at h3
              exact h3.symm
            · simp [HubAct.onWorker] at h3
      · subst h
        rcases List.mem_append.mp hw_mem with h1 | h1
        · have := hhd _ h1
          simp [HubAct.onWorker] at this
        · rcases List.mem_cons.mp h1 with h2 | h2
          · cases h2
          · rcases List.mem_append.mp h2 with h3 | h3
            · rcases (hmid _ h3).2 with h4 | h4
              · simp [HubAct.onWorker] at h4
                exact h4.symm
              · simp [HubAct.onWorker] at h4
            · rcases List.mem_cons.mp h3 with h4 | h4
              · cases h4
              · cases h4
    subst hvw
    rcases hcase with hcase | hcase
    · have h1 := counts_zero_of_none hd v hhd
      have h2 := counts_zero_of_noLock mid1 v (fun a ha => (hmid a ha).1)
      simp only [TaskHolds]
      subst hcase
      simp only [acqCount, relCount, List.count_append, List.count_cons] at h1 h2 ⊢
      simp [h1.1, h1.2, h2.1, h2.2]
    · exfalso
      have hlast : d.getLast? = some (HubAct.release v) := by
        rw [hcase, show hd ++ HubAct.acquire v :: (mid1 ++ [HubAct.release v]) =
          (hd ++ HubAct.acquire v :: mid1) ++ [HubAct.release v] by simp]
        exact List.getLast?_concat _
      rcases List.eq_nil_or_concat d2 with hd2 | ⟨zs, z, hd2⟩
      · subst hd2
        rw [hdone, List.getLast?_concat] at hlast
        simp at hlast
      · rw [List.concat_eq_append] at hd2
        subst hd2
        rw [hdone, show d1 ++ HubAct.write v req :: (zs ++ [z]) =
          (d1 ++ HubAct.write v req :: zs) ++ [z] by simp] at hlast
        rw [List.getLast?_concat] at hlast
        have hz := Option.some.inj hlast
        exact hnl (hz ▸ List.mem_append_right _ (List.mem_cons_self _ _))

theorem count_append_one (x : HubAct) (d : List HubAct) (a : HubAct) :
    (d ++ [a]).count x = d.count x + (if a = x then 1 else 0) := by
  simp [List.count_append, List.count_singleton, beq_iff_eq]

theorem step_preserves_good (c : Config) (i : Nat) (c2 : Config)
    (hstep : Step c i c2) (hg : GoodConfig c) : GoodConfig c2 := by
  obtain ⟨hTr, hInv⟩ := hg
  cases hstep with
  | mk t a rest hget htodo hpre =>
    have hilen : i < c.tasks.length := by
      rcases List.getElem?_eq_some_iff.mp hget with ⟨h, _⟩
      exact h
    have htmem : t ∈ c.tasks := List.getElem?_mem hget
    have htsr : SingleRegion (t.done ++ t.todo) := hTr t htmem
    have hb : ∀ w, acqCount t.done w ≤ 1 ∧ relCount t.done w ≤ acqCount t.done w :=
      fun w => count_bounds (t.done ++ t.todo) t.done t.todo w htsr rfl
    have htraceEq : (t.done ++ [a]) ++ rest = t.done ++ t.todo := by
      rw [htodo]
      simp
    have hHoldsNe : ∀ (w : String) (k : Nat), k ≠ i →
        (Holds (applyAct c i t a rest) w k ↔ Holds c w k) := by
      intro w k hk
      simp only [Holds, applyAct]
      rw [List.getElem?_set_ne (fun h => hk h.symm)]
    have hHoldsI : ∀ w : String,
        Holds (applyAct c i t a rest) w i ↔ TaskHolds ⟨t.done ++ [a], rest⟩ w := by
      intro w
      simp only [Holds, applyAct]
      rw [List.getElem?_set_self hilen]
      constructor
      · rintro ⟨t2, ht2, h⟩
        cases Option.some.inj ht2
        exact h
      · intro h
        exact ⟨_, rfl, h⟩
    have hHoldsOld : ∀ w : String, Holds c w i ↔ TaskHolds t w := by
      intro w
      constructor
      · rintro ⟨t2, ht2, h⟩
        rw [hget] at ht2
        cases Option.some.inj ht2
        exact h
      · intro h
        exact ⟨t, hget, h⟩
    have hTHsame : ∀ w : String, a ≠ HubAct.acquire w → a ≠ HubAct.release w →
        (TaskHolds ⟨t.done ++ [a], rest⟩ w ↔ TaskHolds t w) := by
      intro w h1 h2
      have hca : List.count (HubAct.acquire w) [a] = 0 :=
        List.count_eq_zero.mpr (by simp only [List.mem_singleton]; exact fun h => h1 h.symm)
      have hcr : List.count (HubAct.release w) [a] = 0 :=
        List.count_eq_zero.mpr (by simp only [List.mem_singleton]; exact fun h => h2 h.symm)
      simp [TaskHolds, acqCount, relCount, List.count_append, hca, hcr]
    constructor
    · intro t2 ht2
      rcases List.mem_or_eq_of_mem_set ht2 with h | h
      · exact hTr t2 h
      · subst h
        simp only
        rw [htraceEq]
        exact htsr
    · intro w k
      cases a with
      | acquire u =>
        have hn : c.holder u = none := hpre
        have hHold : (applyAct c i t (HubAct.acquire u) rest).holder w =
            if w = u then some i else c.holder w := rfl
        rw [hHold]
        by_cases hwu : w = u
        · rw [if_pos hwu]
          subst hwu
          constructor
          · intro hik
            have hki : k = i := (Option.some.inj hik).symm
            subst hki
            rw [hHoldsI]
            simp only [TaskHolds, acqCount, relCount, count_append_one]
            have h2 := (hb w).2
            simp only [acqCount, relCount] at h2
            simp
            omega
          · intro hh
            by_cases hki : k = i
            · subst hki
              rfl
            · rw [hHoldsNe w k hki] at hh
              have hck := (hInv w k).mpr hh
              rw [hn] at hck
              exact Option.noConfusion hck
        · rw [if_neg hwu]
          by_cases hki : k = i
          · subst hki
            rw [hHoldsI, hTHsame w (by simp [Ne.symm hwu]) (by simp), ← hHoldsOld w]
            exact hInv w k
          · rw [hHoldsNe w k hki]
            exact hInv w k
      | release u =>
        have hs : c.holder u = some i := hpre
        have hholds : TaskHolds t u := (hHoldsOld u).mp ((hInv u i).mp hs)
        have hacq1 : acqCount t.done u = 1 ∧ relCount t.done u = 0 := by
          have h1 := (hb u).1
          have h2 := (hb u).2
          simp only [TaskHolds] at hholds
          omega
        have hHold : (applyAct c i t (HubAct.release u) rest).holder w =
            if w = u then none else c.holder w := rfl
        rw [hHold]
        by_cases hwu : w = u
        · rw [if_pos hwu]
          subst hwu
          constructor
          · intro hik
            exact Option.noConfusion hik
          · intro hh
            exfalso
            by_cases hki : k = i
            · subst hki
              rw [hHoldsI] at hh
              simp only [TaskHolds, acqCount, relCount, count_append_one] at hh
              simp only [acqCount, relCount] at hacq1
              simp at hh
              omega
            · rw [hHoldsNe w k hki] at hh
              have hck := (hInv w k).mpr hh
              rw [hs] at hck
              exact hki (Option.some.inj hck).symm
        · rw [if_neg hwu]
          by_cases hki : k = i
          · subst hki
            rw [hHoldsI, hTHsame w (by simp) (by simp [Ne.symm hwu]), ← hHoldsOld w]
            exact hInv w k
          · rw [hHoldsNe w k hki]
            exact hInv w k
      | awaitStartup =>
        have hHold : (applyAct c i t HubAct.awaitStartup rest).holder w = c.holder w := rfl
        rw [hHold]
        by_cases hki : k = i
        · subst hki
          rw [hHoldsI, hTHsame w (by simp) (by simp), ← hHoldsOld w]
          exact hInv w k
        · rw [hHoldsNe w k hki]
          exact hInv w k
      | setStartup =>
        have hHold : (applyAct c i t HubAct.setStartup rest).holder w = c.holder w := rfl
        rw [hHold]
        by_cases hki : k = i
        · subst hki
          rw [hHoldsI, hTHsame w (by simp) (by simp), ← hHoldsOld w]
          exact hInv w k
        · rw [hHoldsNe w k hki]
          exact hInv w k
      | write u req =>
        have hHold : (applyAct c i t (HubAct.write u req) rest).holder w = c.holder w := rfl
        rw [hHold]
        by_cases hki : k = i
        · subst hki
          rw [hHoldsI, hTHsame w (by simp) (by simp), ← hHoldsOld w]
          exact hInv w k
        · rw [hHoldsNe w k hki]
          exact hInv w k
      | readline u =>
        have hHold : (applyAct c i t (HubAct.readline u) rest).holder w = c.holder w := rfl
        rw [hHold]
        by_cases hki : k = i
        · subst hki
          rw [hHoldsI, hTHsame w (by simp) (by simp), ← hHoldsOld w]
          exact hInv w k
        · rw [hHoldsNe w k hki]
          exact hInv w k

theorem reachable_good (c c2 : Config) (hr : Reachable c c2) (hg : GoodConfig c) :
    GoodConfig c2 := by
  induction hr with
  | refl => exact hg
  | tail _ hstep ih =>
    obtain ⟨i, hs⟩ := hstep
    exact step_preserves_good _ i _ hs ih

theorem good_outstanding_unique (c : Config) (hg : GoodConfig c) (w : String) (i j : Nat)
    (hi : Outstanding c w i) (hj : Outstanding c w j) : i = j := by
  obtain ⟨ti, hti, hoi⟩ := hi
  obtain ⟨tj, htj, hoj⟩ := hj
  have h1 : TaskHolds ti w :=
    outstandingTask_holds ti.done ti.todo w (hg.1 ti (List.getElem?_mem hti)) hoi
  have h2 : TaskHolds tj w :=
    outstandingTask_holds tj.done tj.todo w (hg.1 tj (List.getElem?_mem htj)) hoj
  have hci : c.holder w = some i := (hg.2 w i).mpr ⟨ti, hti, h1⟩
  have hcj : c.holder w = some j := (hg.2 w j).mpr ⟨tj, htj, h2⟩
  rw [hci] at hcj
  exact Option.some.inj hcj

theorem call_tool_actions_singleRegion (st : HubState)
    (behavior : String → Json → WireOutcome) (name : String) (args : Json) :
    SingleRegion (call_tool_actions st behavior name args) := by
  unfold call_tool_actions
  simp only
  split
  · split
    · exact SingleRegion.region [HubAct.awaitStartup] (resolve_skill st name) []
        (by intro a ha; rw [List.mem_singleton.mp ha]; rfl)
        (by intro a ha; cases ha)
    · exact SingleRegion.region [HubAct.awaitStartup] (resolve_skill st name)
        [HubAct.write (resolve_skill st name) (mkToolsCallRequest name args)]
        (by intro a ha; rw [List.mem_singleton.mp ha]; rfl)
        (by intro a ha; rw [List.mem_singleton.mp ha]; exact ⟨rfl, Or.inl rfl⟩)
    · exact SingleRegion.region [HubAct.awaitStartup] (resolve_skill st name)
        [HubAct.write (resolve_skill st name) (mkToolsCallRequest name args),
         HubAct.readline (resolve_skill st name)]
        (by intro a ha; rw [List.mem_singleton.mp ha]; rfl)
        (by
          intro a ha
          rcases List.mem_cons.mp ha with h | h
          · rw [h]; exact ⟨rfl, Or.inl rfl⟩
          · rw [List.mem_singleton.mp h]; exact ⟨rfl, Or.inl rfl⟩)
    · exact SingleRegion.region [HubAct.awaitStartup] (resolve_skill st name)
        [HubAct.write (resolve_skill st name) (mkToolsCallRequest name args),
         HubAct.readline (resolve_skill st name)]
        (by intro a ha; rw [List.mem_singleton.mp ha]; rfl)
        (by
          intro a ha
          rcases List.mem_cons.mp ha with h | h
          · rw [h]; exact ⟨rfl, Or.inl rfl⟩
          · rw [List.mem_singleton.mp h]; exact ⟨rfl, Or.inl rfl⟩)
  · exact SingleRegion.noLock _ (by intro a ha; rw [List.mem_singleton.mp ha]; rfl)

theorem callToolTasks_good (c : Config) (hc : CallToolTasks c) : GoodConfig c := by
  constructor
  · intro t ht
    obtain ⟨hd0, st, b, n, a, htodo⟩ := hc.2 t ht
    rw [hd0, htodo]
    simpa using call_tool_actions_singleRegion st b n a
  · intro w k
    constructor
    · intro h
      rw [hc.1 w] at h
      exact Option.noConfusion h
    · rintro ⟨t, hget, hth⟩
      exfalso
      obtain ⟨hd0, _⟩ := hc.2 t (List.getElem?_mem hget)
      simp [TaskHolds, acqCount, relCount, hd0] at hth

theorem jsonList_toList_ofList (l : List Json) : (JsonList.ofList l).toList = l := by
  induction l with
  | nil => rfl
  | cons x tl ih => simp [JsonList.ofList, JsonList.toList, ih]

theorem jsonObj_toList_ofList (l : List (String × Json)) : (JsonObj.ofList l).toList = l := by
  induction l with
  | nil => rfl
  | cons p tl ih =>
    obtain ⟨k, v⟩ := p
    simp [JsonObj.ofList, JsonObj.toList, ih]

theorem dictGet_dictInsert_self (d : List (String × String)) (k v : String) :
    dictGet (dictInsert d k v) k = some v := by
  induction d with
  | nil => simp [dictInsert, dictGet]
  | cons p rest ih =>
    obtain ⟨k2, v2⟩ := p
    by_cases h : k2 = k
    · simp [dictInsert, dictGet, h]
    · simp [dictInsert, dictGet, h, ih]

theorem dictGet_dictInsert_ne (d : List (String × String)) (k k2 v : String)
    (h : k2 ≠ k) : dictGet (dictInsert d k2 v) k = dictGet d k := by
  induction d with
  | nil => simp [dictInsert, dictGet, h]
  | cons p rest ih =>
    obtain ⟨k3, v3⟩ := p
    by_cases h3 : k3 = k2
    · subst h3
      simp [dictInsert, dictGet, h]
    · by_cases h4 : k3 = k
      · subst h4
        simp [dictInsert, dictGet, h3, h]
      · simp [dictInsert, dictGet, h3, h4, ih]

theorem parseTool_mkToolJson (t : String) :
    parseTool (mkToolJson t) = .ok ⟨t, mkToolJson t⟩ := by
  rfl

theorem populate_worker_ok (m : List (String × String)) (n : String) (ts : List String) :
    populate_worker m (n, .line (mkToolsListResponse ts)) =
      insertTools m n (ts.map mkToolJson) := by
  simp [populate_worker, mkToolsListResponse, pyInKey, pyIndexKey, pyGet, jobj, jarr,
    JsonObj.toList, JsonObj.ofList, lookupField, jsonList_toList_ofList]

theorem insertTools_lookup (m : List (String × String)) (n : String) (ts : List String)
    (x : String) :
    dictGet (insertTools m n (ts.map mkToolJson)) x =
      if x ∈ ts then some n else dictGet m x := by
  induction ts generalizing m with
  | nil => simp [insertTools]
  | cons hd tl ih =>
    simp only [List.map_cons, insertTools, parseTool_mkToolJson]
    rw [ih]
    by_cases hx : x ∈ tl
    · simp [hx]
    · by_cases hhd : hd = x
      · subst hhd
        simp [hx, dictGet_dictInsert_self]
      · simp [hx, hhd, dictGet_dictInsert_ne m x hd n hhd, List.mem_cons]
        rw [if_neg (fun h => hhd (Eq.symm h))]

theorem populate_ok_lookup (workers : List (String × List String)) (x : String) :
    dictGet (populate_tool_mapping (okWorkers workers)) x = lastDeclarer workers x := by
  induction workers using List.reverseRecOn with
  | nil => rfl
  | append_singleton l a ih =>
    obtain ⟨n, ts⟩ := a
    have h1 : okWorkers (l ++ [(n, ts)]) =
        okWorkers l ++ [(n, WireOutcome.line (mkToolsListResponse ts))] := by
      simp [okWorkers]
    have h2 : populate_tool_mapping
          (okWorkers l ++ [(n, WireOutcome.line (mkToolsListResponse ts))]) =
        populate_worker (populate_tool_mapping (okWorkers l))
          (n, WireOutcome.line (mkToolsListResponse ts)) := by
      simp [populate_tool_mapping, List.foldl_append]
    rw [h1, h2, populate_worker_ok, insertTools_lookup]
    have h3 : lastDeclarer (l ++ [(n, ts)]) x =
        if x ∈ ts then some n else lastDeclarer l x := by
      by_cases h : x ∈ ts
      · simp [lastDeclarer, List.reverse_append, h]
      · simp [lastDeclarer, List.reverse_append, h]
    rw [h3]
    by_cases h : x ∈ ts
    · simp [h]
    · simp [h, ih]

theorem lookupField_nil (k : String) : lookupField [] k = none := rfl

theorem any_key_false_of_lookupField_none (fields : List (String × Json)) (k : String)
    (h : lookupField fields k = none) :
    (fields.any (fun f => f.1 == k)) = false := by
  rw [List.any_eq_false]
  intro f hf
  simp only [lookupField, Option.map_eq_none', List.find?_eq_none] at h
  simpa using h f (List.mem_reverse.mpr hf)

theorem call_tool_exchange_content (fields rfields : List (String × Json)) (content : Json)
    (herr : lookupField fields "error" = none)
    (hres : lookupField fields "result" = some (jobj rfields))
    (hcont : lookupField rfields "content" = some content) :
    call_tool_exchange (.line (jobj fields)) = .ok content := by
  have hany := any_key_false_of_lookupField_none fields "error" herr
  simp [call_tool_exchange, pyInKey, pyGet, jobj, jsonObj_toList_ofList, hany, hres, hcont,
    bind, Except.bind, pure, Except.pure]

theorem call_tool_exchange_no_content (fields : List (String × Json))
    (herr : lookupField fields "error" = none)
    (hres : lookupField fields "result" = none ∨
      ∃ rfields, lookupField fields "result" = some (jobj rfields) ∧
        lookupField rfields "content" = none) :
    call_tool_exchange (.line (jobj fields)) = .ok (jarr []) := by
  have hany := any_key_false_of_lookupField_none fields "error" herr
  rcases hres with h | ⟨rfields, h1, h2⟩
  · simp [call_tool_exchange, pyInKey, pyGet, jobj, jarr, jsonObj_toList_ofList, hany, h,
      lookupField_nil, bind, Except.bind, pure, Except.pure]
  · simp [call_tool_exchange, pyInKey, pyGet, jobj, jsonObj_toList_ofList, hany, h1, h2,
      bind, Except.bind, pure, Except.pure]

theorem populate_states_from_getLast (skills : List (String × WireOutcome))
    (m : List (String × String)) :
    (m :: populate_states_from m skills).getLast? =
      some (skills.foldl populate_worker m) := by
  induction skills generalizing m with
  | nil => rfl
  | cons s rest ih =>
    simp only [populate_states_from, List.foldl_cons]
    rw [List.getLast?_cons_cons]
    exact ih (populate_worker m s)

theorem populate_states_from_index (skills : List (String × WireOutcome))
    (m : List (String × String)) (k : Nat) (hk : k < skills.length) :
    (populate_states_from m skills)[k]? =
      some ((skills.take (k + 1)).foldl populate_worker m) := by
  induction skills generalizing m k with
  | nil => cases hk
  | cons s rest ih =>
    cases k with
    | zero => simp [populate_states_from, List.take]
    | succ k2 =>
      simp only [populate_states_from, List.take, List.foldl_cons, List.getElem?_cons_succ]
      exact ih (populate_worker m s) k2 (by simpa using hk)

theorem proxy_worker_skip (acc : List ToolR) (s : ProxySkill)
    (h : skippedSilently s) : proxy_worker acc s = acc := by
  rcases h with h | h | ⟨m, h⟩ | ⟨m, h⟩ | ⟨r, h, he⟩
  · simp [proxy_worker, h]
  · by_cases hd : s.dead <;> simp [proxy_worker, hd, h]
  · by_cases hd : s.dead <;> simp [proxy_worker, hd, h]
  · by_cases hd : s.dead <;> simp [proxy_worker, hd, h]
  · by_cases hd : s.dead <;> simp [proxy_worker, hd, h, he]

theorem step_started_mono (c : Config) (i : Nat) (c2 : Config) (hs : Step c i c2)
    (h : c.started = true) : c2.started = true := by
  cases hs with
  | mk t a rest hget htodo hpre => cases a <;> simp [applyAct, h]

theorem reachable_started_mono (c c2 : Config) (hr : Reachable c c2)
    (h : c.started = true) : c2.started = true := by
  induction hr with
  | refl => exact h
  | tail _ hstep ih =>
    obtain ⟨i, hs⟩ := hstep
    exact step_started_mono _ i _ hs ih

theorem spawn_registry_tweak (skills : List SkillSpec) (f : SkillSpec → WireOutcome)
    (g : SkillSpec → Bool) :
    spawn_registry (skills.map (tweakInit f g)) = spawn_registry skills := by
  simp [spawn_registry, List.filter_map, List.foldl_map, tweakInit, Function.comp_def]

theorem specOf_tweak (skills : List SkillSpec) (f : SkillSpec → WireOutcome)
    (g : SkillSpec → Bool) (n : String) :
    specOf (skills.map (tweakInit f g)) n = (specOf skills n).map (tweakInit f g) := by
  have hp : ((fun s : SkillSpec => s.name == n && s.spawnOk) ∘ tweakInit f g) =
      (fun s : SkillSpec => s.name == n && s.spawnOk) := by
    funext s
    rfl
  unfold specOf
  rw [← List.map_reverse, List.find?_map, hp]

theorem listBehaviorOf_tweak (skills : List SkillSpec) (f : SkillSpec → WireOutcome)
    (g : SkillSpec → Bool) (n : String) :
    listBehaviorOf (skills.map (tweakInit f g)) n = listBehaviorOf skills n := by
  simp only [listBehaviorOf, specOf_tweak]
  cases specOf skills n with
  | none => rfl
  | some s => rfl

theorem load_drop_failed_spawn (pre post : List SkillSpec) (s : SkillSpec)
    (h : s.spawnOk = false) :
    load_skills_and_initialize true (pre ++ s :: post) =
      load_skills_and_initialize true (pre ++ post) := by
  have h1 : spawn_registry (pre ++ s :: post) = spawn_registry (pre ++ post) := by
    simp [spawn_registry, List.filter_append, List.filter_cons, h]
  have h2 : ∀ n, specOf (pre ++ s :: post) n = specOf (pre ++ post) n := by
    intro n
    simp only [specOf, List.reverse_append, List.reverse_cons, List.find?_append]
    have hs : (s.name == n && s.spawnOk) = false := by
      rw [h]
      simp
    simp [List.find?_cons, hs]
  have h3 : ∀ n, listBehaviorOf (pre ++ s :: post) n = listBehaviorOf (pre ++ post) n := by
    intro n
    rw [listBehaviorOf, listBehaviorOf, h2]
  simp only [ load_skills_and_initialize, Bool.not_true, h1]
  have h4 : (fun n => match specOf (pre ++ s :: post) n with
      | some s2 => initialize_skill_process s2.initResp s2.notifyOk
      | none => false) = (fun n => match specOf (pre ++ post) n with
      | some s2 => initialize_skill_process s2.initResp s2.notifyOk
      | none => false) := by
    funext n
    rw [h2]
  have h5 : (fun n => (n, listBehaviorOf (pre ++ s :: post) n)) =
      (fun n => (n, listBehaviorOf (pre ++ post) n)) := by
    funext n
    rw [h3]
  rw [h4, h5]

/-- C1: the claim says a concurrent reader of the Capability Index sees
either the complete prior mapping or the complete new mapping, never a
partial one. False: `populate_tool_mapping` mutates `TOOL_MAPPING` in
place — it clears it and repopulates it worker by worker, awaiting each
worker's lock/drain/readline in between, so a reader scheduled at such a
suspension point observes `[]` (the cleared state) or `[("x", "A")]`
(only worker A processed). Here the prior mapping equals the new mapping
`[("x", "A"), ("y", "B")]` (the same two workers are re-polled), and both
observable intermediate states differ from it. -/
theorem c1_counterexample :
    populate_tool_mapping rebuildDemo = [("x", "A"), ("y", "B")] ∧
    ([] : List (String × String)) ∈ populate_tool_mapping_states rebuildDemo ∧
    [("x", "A")] ∈ populate_tool_mapping_states rebuildDemo ∧
    ([] : List (String × String)) ≠ populate_tool_mapping rebuildDemo ∧
    [("x", "A")] ≠ populate_tool_mapping rebuildDemo := by
  decide

/-- C1 (amended): the rebuild mutates the index in place and
incrementally: the first observable state of `TOOL_MAPPING` is the
cleared mapping (so prior entries ARE all discarded, but not atomically
with the arrival of new ones), the state after the k-th worker is
exactly the mapping rebuilt from the first k+1 workers, and the last
observable state is the completed new mapping. -/
theorem c1_index_rebuilt_incrementally (skills : List (String × WireOutcome)) :
    (populate_tool_mapping_states skills).head? = some [] ∧
    (populate_tool_mapping_states skills).getLast? = some (populate_tool_mapping skills) ∧
    (∀ k, k < skills.length → (populate_tool_mapping_states skills)[k + 1]? =
      some (populate_tool_mapping (skills.take (k + 1)))) := by
  refine ⟨rfl, populate_states_from_getLast skills [], ?_⟩
  intro k hk
  have h := populate_states_from_index skills [] k hk
  simpa [populate_tool_mapping_states, populate_tool_mapping] using h

/-- Witness for the amended C1 at a concrete input: after the first of
the two demo workers, the observable mapping is the one-worker rebuild. -/
theorem c1_witness :
    (populate_tool_mapping_states rebuildDemo)[1]? =
      some (populate_tool_mapping (rebuildDemo.take 1)) :=
  (c1_index_rebuilt_incrementally rebuildDemo).2.2 0 (by decide)

/-- C2: the claim says a worker whose `initialize` handshake fails is
removed from the Worker Registry before the Capability Index is built,
so no index entry targets it. False: `initialize_skill_process` returns
False but `load_skills_and_initialize` discards the gathered results and
never deletes from `PROCESSES`; the failed worker stays registered and
the index maps its tool to it. -/
theorem c2_counterexample :
    initialize_skill_process badInitSkill.initResp badInitSkill.notifyOk = false ∧
    ( load_skills_and_initialize true [badInitSkill]).registry = ["a"] ∧
    dictGet ( load_skills_and_initialize true [badInitSkill]).mapping "t" = some "a" := by
  decide

/-- C2 (amended): a failed handshake only yields a False result that the
startup sequence discards: the Worker Registry, the lock table and the
Capability Index that `load_skills_and_initialize` produces are
completely independent of every worker's `initialize` reaction and of
the `initialized`-notification outcome. -/
theorem c2_handshake_result_discarded (skills : List SkillSpec)
    (f : SkillSpec → WireOutcome) (g : SkillSpec → Bool) :
    ( load_skills_and_initialize true (skills.map (tweakInit f g))).registry =
      ( load_skills_and_initialize true skills).registry ∧
    ( load_skills_and_initialize true (skills.map (tweakInit f g))).locks =
      ( load_skills_and_initialize true skills).locks ∧
    ( load_skills_and_initialize true (skills.map (tweakInit f g))).mapping =
      ( load_skills_and_initialize true skills).mapping := by
  have hreg := spawn_registry_tweak skills f g
  have hb : (fun n => (n, listBehaviorOf (skills.map (tweakInit f g)) n)) =
      (fun n => (n, listBehaviorOf skills n)) := by
    funext n
    rw [listBehaviorOf_tweak]
  simp only [ load_skills_and_initialize, Bool.not_true, Bool.false_eq_true,
    if_false, hreg, hb]
  exact ⟨trivial, trivial, trivial⟩

/-- C3: for an operation present in the Capability Index and owned by a
registered worker, `call_tool` returns the worker's `result.content`
unchanged when the reply carries a `result.content` and no `error`; the
request written to that worker is `mkToolsCallRequest name args`, whose
`params.arguments` is the caller's payload unchanged. -/
theorem c3_invoke_forwards_payload_and_returns_content
    (st : HubState) (behavior : String → Json → WireOutcome)
    (name skill : String) (args : Json)
    (fields rfields : List (String × Json)) (content : Json)
    (hmap : dictGet st.toolMapping name = some skill)
    (hne : skill ≠ "")
    (hproc : st.processes.contains skill = true)
    (hlock : st.locks.contains skill = true)
    (hbeh : behavior skill (mkToolsCallRequest name args) = .line (jobj fields))
    (herr : lookupField fields "error" = none)
    (hres : lookupField fields "result" = some (jobj rfields))
    (hcont : lookupField rfields "content" = some content) :
    call_tool st behavior name args = content ∧
    HubAct.write skill (mkToolsCallRequest name args) ∈
      call_tool_actions st behavior name args ∧
    (∃ p, jsonField (mkToolsCallRequest name args) "params" = some p ∧
      jsonField p "arguments" = some args) := by
  have hresolve : resolve_skill st name = skill := by
    simp [resolve_skill, hmap, hne]
  have hp : skill ∈ st.processes := by simpa using hproc
  have hl : skill ∈ st.locks := by simpa using hlock
  refine ⟨?_, ?_, ?_⟩
  · simp [call_tool, hresolve, hp, hl, hbeh,
      call_tool_exchange_content fields rfields content herr hres hcont]
  · simp [call_tool_actions, hresolve, hp, hl, hbeh]
  · exact ⟨jobj [("name", Json.str name), ("arguments", args)], rfl, rfl⟩

theorem c3_witness :
    call_tool fwdSt fwdBeh "t" (jobj [("k", Json.num 5)]) = jarr [textContent "ok"] ∧
    HubAct.write "a" (mkToolsCallRequest "t" (jobj [("k", Json.num 5)])) ∈
      call_tool_actions fwdSt fwdBeh "t" (jobj [("k", Json.num 5)]) ∧
    (∃ p, jsonField (mkToolsCallRequest "t" (jobj [("k", Json.num 5)])) "params" = some p ∧
      jsonField p "arguments" = some (jobj [("k", Json.num 5)])) :=
  c3_invoke_forwards_payload_and_returns_content fwdSt fwdBeh "t" "a"
    (jobj [("k", Json.num 5)])
    [("jsonrpc", Json.str "2.0"), ("id", Json.num 1),
      ("result", jobj [("content", jarr [textContent "ok"])])]
    [("content", jarr [textContent "ok"])] (jarr [textContent "ok"])
    (by decide) (by decide) (by decide) (by decide) rfl (by decide) (by decide) (by decide)

/-- C4: the claim says a missing skills root directory is fatal to the
whole system. False: `load_skills_and_initialize` logs the condition,
sets `STARTUP_EVENT`, and returns with an empty registry; the router
keeps serving (an empty catalog, "Unknown tool" results), so nothing is
fatal. -/
theorem c4_counterexample :
    load_skills_and_initialize false [badInitSkill] = HubBootState.mk [] [] [] true [] ∧
    proxy_list_tools [] = [] ∧
    call_tool (HubState.mk [] [] []) (fun _ _ => WireOutcome.eof) "x" (jobj []) =
      jarr [textContent "Unknown tool: x"] := by
  decide

/-- C4 (amended): a missing skills root is NOT fatal — startup completes
with an empty registry and the event set; and worker-local failures are
contained: a failed spawn only removes that one worker from the whole
boot result, and an exception during an invocation round trip becomes a
text result ("Unknown tool" or "Error communicating with skill"), never
an escaping exception. -/
theorem c4_missing_root_not_fatal :
    (∀ skills, load_skills_and_initialize false skills = HubBootState.mk [] [] [] true []) ∧
    (∀ pre post s, s.spawnOk = false →
      load_skills_and_initialize true (pre ++ s :: post) =
        load_skills_and_initialize true (pre ++ post)) ∧
    (∀ st behavior name args msg,
      behavior (resolve_skill st name) (mkToolsCallRequest name args) =
        WireOutcome.raisesAtRead msg →
      call_tool st behavior name args = jarr [textContent ("Unknown tool: " ++ name)] ∨
      call_tool st behavior name args =
        jarr [textContent ("Error communicating with skill: " ++ msg)]) := by
  refine ⟨fun skills => rfl, load_drop_failed_spawn, ?_⟩
  intro st behavior name args msg hbeh
  by_cases h : resolve_skill st name ∈ st.processes ∧ resolve_skill st name ∈ st.locks
  · right
    simp [call_tool, h.1, h.2, hbeh, call_tool_exchange]
  · left
    simp [call_tool, h]

theorem c4_witness :
    load_skills_and_initialize true ([] ++ SkillSpec.mk "z" false .eof true .eof :: []) =
      load_skills_and_initialize true ([] ++ []) ∧
    (call_tool (HubState.mk [] [] []) (fun _ _ => WireOutcome.raisesAtRead "boom") "x"
        (jobj []) = jarr [textContent "Unknown tool: x"] ∨
      call_tool (HubState.mk [] [] []) (fun _ _ => WireOutcome.raisesAtRead "boom") "x"
        (jobj []) = jarr [textContent "Error communicating with skill: boom"]) :=
  ⟨c4_missing_root_not_fatal.2.1 [] [] (SkillSpec.mk "z" false .eof true .eof) rfl,
    c4_missing_root_not_fatal.2.2 (HubState.mk [] [] [])
      (fun _ _ => WireOutcome.raisesAtRead "boom") "x" (jobj []) "boom" rfl⟩

/-- C5: an operation name absent from the Capability Index falls back to
being read as a worker identifier; when no such worker exists either,
`call_tool` returns the "Unknown tool" text result (it raises nothing:
every failing path of the embedded `call_tool` is a returned value). -/
theorem c5_unknown_operation_result (st : HubState)
    (behavior : String → Json → WireOutcome) (name : String) (args : Json)
    (habs : dictGet st.toolMapping name = none)
    (hnoproc : st.processes.contains name = false) :
    resolve_skill st name = name ∧
    call_tool st behavior name args = jarr [textContent ("Unknown tool: " ++ name)] := by
  have hresolve : resolve_skill st name = name := by
    simp [resolve_skill, habs]
  have hnp : name ∉ st.processes := by simpa using hnoproc
  refine ⟨hresolve, ?_⟩
  simp [call_tool, hresolve, hnp]

theorem c5_witness :
    resolve_skill fwdSt "does-not-exist" = "does-not-exist" ∧
    call_tool fwdSt fwdBeh "does-not-exist" (jobj []) =
      jarr [textContent "Unknown tool: does-not-exist"] :=
  c5_unknown_operation_result fwdSt fwdBeh "does-not-exist" (jobj [])
    (by decide) (by decide)

theorem twoCallsDemo_init : CallToolTasks twoCallsDemo := by
  constructor
  · intro w
    rfl
  · intro t ht
    rcases List.mem_cons.mp ht with h | h
    · subst h
      exact ⟨rfl, fwdSt, fun _ _ => WireOutcome.eof, "t", jobj [], rfl⟩
    · rcases List.mem_cons.mp h with h2 | h2
      · subst h2
        exact ⟨rfl, fwdSt, fun _ _ => WireOutcome.eof, "t", jobj [], rfl⟩
      · cases h2

/-- C6: when every scheduled task is a `call_tool` invocation, in every
configuration the scheduler can reach, no two distinct tasks have an RPC
exchange outstanding on the same worker at the same time: each trace of
`call_tool` takes the worker's lock before the write and gives it up
only after the read (or on the exception path), so the lock exclusion of
the step semantics makes the written-but-not-yet-read window of one task
exclude every other task's. -/
theorem c6_at_most_one_outstanding_rpc (c0 c : Config) (hinit : CallToolTasks c0)
    (hr : Reachable c0 c) (w : String) (i j : Nat) (hij : i ≠ j) :
    ¬ (Outstanding c w i ∧ Outstanding c w j) := by
  rintro ⟨hi, hj⟩
  exact hij (good_outstanding_unique c
    (reachable_good c0 c hr (callToolTasks_good c0 hinit)) w i j hi hj)

theorem c6_witness : ¬ (Outstanding twoCallsDemo "a" 0 ∧ Outstanding twoCallsDemo "a" 1) :=
  c6_at_most_one_outstanding_rpc twoCallsDemo twoCallsDemo twoCallsDemo_init
    Relation.ReflTransGen.refl "a" 0 1 (by decide)

/-- C7: a worker that `proxy_list_tools` finds dead, that returns no
line, that replies with an `error`, or whose exchange raises, contributes
nothing to the catalog, and the result is exactly the catalog computed
from the remaining workers — so every other responsive worker's tools
are still returned and no error propagates. -/
theorem c7_failed_worker_skipped_silently (s : ProxySkill) (h : skippedSilently s)
    (pre post : List ProxySkill) :
    proxy_list_tools (pre ++ s :: post) = proxy_list_tools (pre ++ post) := by
  rw [proxy_list_tools, proxy_list_tools, List.foldl_append, List.foldl_append,
    List.foldl_cons, proxy_worker_skip _ s h]

theorem c7_witness :
    proxy_list_tools [ProxySkill.mk "a" false (WireOutcome.line (mkToolsListResponse ["x"])),
        ProxySkill.mk "b" true WireOutcome.eof] =
      proxy_list_tools [ProxySkill.mk "a" false (WireOutcome.line (mkToolsListResponse ["x"]))] :=
  c7_failed_worker_skipped_silently (ProxySkill.mk "b" true WireOutcome.eof)
    (Or.inl rfl)
    [ProxySkill.mk "a" false (WireOutcome.line (mkToolsListResponse ["x"]))] []

/-- C8: over any roster of responsive workers, the rebuilt Capability
Index maps an operation name to exactly the worker enumerated last among
those declaring it — the later-processed worker's `TOOL_MAPPING[...] = name`
assignment silently overwrites the earlier one. -/
theorem c8_last_write_wins (workers : List (String × List String)) (t : String) :
    dictGet (populate_tool_mapping (okWorkers workers)) t = lastDeclarer workers t :=
  populate_ok_lookup workers t

/-- C9: both external entry points gate on the Startup Complete signal —
their traces begin with the `STARTUP_EVENT.wait()` suspension — a task
whose next action is that wait cannot step while the event is unset, can
always step once it is set, and no scheduler step ever unsets the event
(`hub.py` has `set()` and no `clear()`), so after it fires no request
suspends on it again. -/
theorem c9_startup_gate :
    (∀ st behavior name args,
      (call_tool_actions st behavior name args).head? = some HubAct.awaitStartup) ∧
    (∀ skills, (proxy_list_tools_actions skills).head? = some HubAct.awaitStartup) ∧
    (∀ c i t rest, c.tasks[i]? = some t → t.todo = HubAct.awaitStartup :: rest →
      c.started = false → ¬ ∃ c2, Step c i c2) ∧
    (∀ c i t rest, c.tasks[i]? = some t → t.todo = HubAct.awaitStartup :: rest →
      c.started = true → ∃ c2, Step c i c2) ∧
    (∀ c c2, Reachable c c2 → c.started = true → c2.started = true) := by
  refine ⟨?_, fun skills => rfl, ?_, ?_, reachable_started_mono⟩
  · intro st behavior name args
    rw [call_tool_actions]
    simp only
    split
    · split <;> rfl
    · rfl
  · rintro c i t rest hget htodo hns ⟨c2, hs⟩
    cases hs with
    | mk t2 a2 rest2 hget2 htodo2 hpre2 =>
      rw [hget] at hget2
      cases Option.some.inj hget2
      rw [htodo] at htodo2
      cases htodo2
      have hstarted : c.started = true := hpre2
      rw [hns] at hstarted
      exact Bool.noConfusion hstarted
  · intro c i t rest hget htodo hs
    exact ⟨applyAct c i t HubAct.awaitStartup rest, Step.mk c i t HubAct.awaitStartup rest hget htodo hs⟩

theorem c9_witness : ¬ ∃ c2, Step blockedDemo 0 c2 :=
  c9_startup_gate.2.2.1 blockedDemo 0
    (RTask.mk [] (call_tool_actions fwdSt (fun _ _ => WireOutcome.eof) "t" (jobj [])))
    [HubAct.acquire "a", HubAct.write "a" (mkToolsCallRequest "t" (jobj [])),
      HubAct.readline "a", HubAct.release "a"]
    rfl (by decide) rfl

/-- C10: when the owning worker replies with a decodable object carrying
no `error` member and either no `result` member or a `result` object
without a `content` member, `call_tool` returns the empty list (the
chained `.get` defaults), not an error text and not an exception. -/
theorem c10_missing_content_returns_empty_list (st : HubState)
    (behavior : String → Json → WireOutcome) (name skill : String) (args : Json)
    (fields : List (String × Json))
    (hmap : dictGet st.toolMapping name = some skill)
    (hne : skill ≠ "")
    (hproc : st.processes.contains skill = true)
    (hlock : st.locks.contains skill = true)
    (hbeh : behavior skill (mkToolsCallRequest name args) = .line (jobj fields))
    (herr : lookupField fields "error" = none)
    (hres : lookupField fields "result" = none ∨
      ∃ rfields, lookupField fields "result" = some (jobj rfields) ∧
        lookupField rfields "content" = none) :
    call_tool st behavior name args = jarr [] := by
  have hresolve : resolve_skill st name = skill := by
    simp [resolve_skill, hmap, hne]
  have hp : skill ∈ st.processes := by simpa using hproc
  have hl : skill ∈ st.locks := by simpa using hlock
  simp [call_tool, hresolve, hp, hl, hbeh,
    call_tool_exchange_no_content fields herr hres]

theorem c10_witness : call_tool fwdSt bareBeh "t" (jobj []) = jarr [] :=
  c10_missing_content_returns_empty_list fwdSt bareBeh "t" "a" (jobj [])
    [("jsonrpc", Json.str "2.0"), ("id", Json.num 1), ("result", jobj [])]
    (by decide) (by decide) (by decide) (by decide) rfl (by decide)
    (Or.inr ⟨[], by decide, by decide⟩)
